import Mathlib

/-
Verification of the line-oriented TCP file-browsing server (server.c,
common.c, client.c, protocol.h).  The embedding models C byte strings as
`List Char`, and the OS filesystem calls (realpath, stat, lstat, readlink)
as an oracle record, so that the server's pure path and dispatch logic can
be stated and proved exactly as the C code computes it.  Fixed-size buffer
guards (MAX_PATH_LEN, MAX_BUFFER_SIZE) are kept; the byte-level truncation
performed by snprintf/strncpy inside those bounds is modelled by
`List.take` where the code can actually truncate.
-/

namespace Srv

/-- Characters of a C string; paths and protocol lines are byte strings
without their terminating NUL unless stated otherwise. -/
abbrev Path := List Char

/-- The path separator. -/
def sep : Char := '/'

/-- MAX_PATH_LEN from protocol.h. -/
def MAX_PATH_LEN : Nat := 4096

/-- MAX_BUFFER_SIZE from protocol.h. -/
def MAX_BUFFER_SIZE : Nat := 4096

/-- CMD_ECHO from protocol.h. -/
def CMD_ECHO : Path := ['E', 'C', 'H', 'O']

/-- CMD_QUIT from protocol.h. -/
def CMD_QUIT : Path := ['Q', 'U', 'I', 'T']

/-- CMD_INFO from protocol.h. -/
def CMD_INFO : Path := ['I', 'N', 'F', 'O']

/-- CMD_CD from protocol.h. -/
def CMD_CD : Path := ['C', 'D']

/-- CMD_LIST from protocol.h. -/
def CMD_LIST : Path := ['L', 'I', 'S', 'T']

/-- RESP_BYE from protocol.h. -/
def RESP_BYE : Path := ['B', 'Y', 'E']

/-- The error marker `RESP_ERROR_` followed by `PREFIX` in protocol.h,
the byte string `ERROR: `. -/
def respErrorPre : Path := "ERROR: ".data

/-- SERVER_DEFAULT_WELCOME_MSG from protocol.h: the text
`Welcome to the test server` followed by `myserver` in single quotes
(character 39). -/
def SERVER_DEFAULT_WELCOME_MSG : Path :=
  "Welcome to the test server ".data ++ [Char.ofNat 39] ++ "myserver".data ++ [Char.ofNat 39]

/-- File kind as classified by lstat in handle_list. -/
inductive LKind
  | dir
  | lnk
  | other
deriving DecidableEq

/-- Oracle for the OS filesystem calls made by the server: realpath
(canonicalization, `none` on failure), stat-and-S_ISDIR, lstat
(`none` when lstat fails), and readlink (`none` on failure). -/
structure FsOracle where
  realpath : Path → Option Path
  isDir : Path → Bool
  lstatKind : Path → Option LKind
  readlink : Path → Option Path

/-- path_after_root in get_relative_path: the whole absolute path when the
root is `/`, otherwise the absolute path with the root length dropped. -/
def relAfterRoot (abs_path root_path : Path) : Path :=
  if root_path = [sep] then abs_path else abs_path.drop root_path.length

/-- get_relative_path from server.c: the absolute path with the root
stripped, always beginning with `/`, or `/` itself when equal to the root;
`none` mirrors the NULL returns (not under root, or buffer too small with
buf_len = MAX_PATH_LEN at both call sites). -/
def get_relative_path (abs_path root_path : Path) : Option Path :=
  if ¬ root_path.isPrefixOf abs_path then none
  else if abs_path.length = root_path.length then some [sep]
  else if abs_path[root_path.length]? ≠ some sep ∧ root_path ≠ [sep] then none
  else if (relAfterRoot abs_path root_path).length + 1 > MAX_PATH_LEN then none
  else if relAfterRoot abs_path root_path = [] then some [sep]
  else if (relAfterRoot abs_path root_path).head? ≠ some sep then
    if (relAfterRoot abs_path root_path).length + 2 > MAX_PATH_LEN then none
    else some (sep :: relAfterRoot abs_path root_path)
  else some (relAfterRoot abs_path root_path)

/-- The trial-path construction of handle_cd (server.c lines 425-466):
absolute arguments are re-rooted at the server root, relative arguments
are appended to the cwd with a separator when the cwd does not already
end in one; `none` mirrors the silent returns on the MAX_PATH_LEN
overflow guards. -/
def buildTrial (root cwd arg : Path) : Option Path :=
  if arg.head? = some sep then
    if root = [sep] then
      if arg.length + 1 > MAX_PATH_LEN then none else some arg
    else if arg = [sep] then
      if root.length + 1 > MAX_PATH_LEN then none else some root
    else if root.length + arg.length + 1 > MAX_PATH_LEN then none
    else some (root ++ arg)
  else if cwd.length + 1 + arg.length + 1 > MAX_PATH_LEN then none
  else some (cwd ++ (if cwd ≠ [sep] ∧ cwd ≠ [] ∧ cwd.getLast? ≠ some sep then [sep] else []) ++ arg)

/-- The containment check of handle_cd (server.c lines 480-484): the
resolved path must start with the root and either equal it, continue with
a separator, or the root must be `/` itself. -/
def jailCheck (root resolved : Path) : Bool :=
  if resolved.length < root.length ∨ ¬ root.isPrefixOf resolved then false
  else if resolved.length > root.length ∧ resolved[root.length]? ≠ some sep ∧ root ≠ [sep] then false
  else true

/-- The display transformation of handle_cd (server.c lines 492-500):
`/` stays `/`; any other relative path has its single leading separator
removed. -/
def cdDisplay (rel : Path) : Path :=
  if rel = [sep] then [sep]
  else if rel.head? = some sep ∧ rel.length > 1 then rel.drop 1
  else rel

/-- handle_cd from server.c: given the session root, current working
directory and the raw CD argument, returns the new cwd and the response
bytes (empty response means nothing is sent by the caller).  The dead
special case at line 468 (empty trial with root `/` and argument `/`) is
kept.  The strncpy of the resolved path into current_wd_abs cannot
truncate because realpath output fits MAX_PATH_LEN. -/
def handle_cd (root cwd arg : Path) (fs : FsOracle) : Path × Path :=
  if arg = [] then (cwd, [])
  else
    match buildTrial root cwd arg with
    | none => (cwd, [])
    | some t0 =>
      match fs.realpath (if t0 = [] ∧ root = [sep] ∧ arg = [sep] then [sep] else t0) with
      | none => (cwd, [])
      | some resolved =>
        if ¬ fs.isDir resolved then (cwd, [])
        else if ¬ jailCheck root resolved then (cwd, [])
        else
          match get_relative_path resolved root with
          | none => (resolved, [])
          | some rel =>
            if (cdDisplay rel).length + 2 ≤ MAX_BUFFER_SIZE then (resolved, cdDisplay rel ++ ['\n'])
            else (resolved, (cdDisplay rel).take (MAX_BUFFER_SIZE - 2) ++ ['\n'])

/-- Whitespace as recognised by the sscanf matcher of the dispatcher. -/
def isWs (c : Char) : Bool :=
  c = ' ' ∨ c = '\t' ∨ c = '\n' ∨ c = '\x0b' ∨ c = '\x0c' ∨ c = '\r'

/-- The command split performed by `sscanf(buffer, "%s %[^\n]", ...)` in
client_handler_thread (server.c line 297) on a line already stripped of
`\r\n`: leading whitespace is skipped, the command is the maximal run of
non-whitespace, then all whitespace after it is skipped and the rest of
the line (verbatim, missing conversions leave the memset empty string) is
the argument. -/
def splitCommand (line : Path) : Path × Path :=
  ((line.dropWhile isWs).takeWhile (fun c => !isWs c),
    ((line.dropWhile isWs).dropWhile (fun c => !isWs c)).dropWhile isWs)

/-- Outcome of dispatching one command line: the session cwd afterwards,
the response lines sent through the single-response path, whether the
session loop breaks (QUIT), and whether the streaming LIST handler ran
(its output is modelled by `listLines`). -/
structure StepResult where
  cwd : Path
  replies : List Path
  closes : Bool
  ranList : Bool
deriving DecidableEq

/-- The command dispatcher of client_handler_thread (server.c lines
292-329): one iteration of the session loop on a received line already
stripped of `\r\n`.  A non-empty `response` buffer is sent as one reply;
an empty one sends nothing. -/
def stepLine (root cwd line : Path) (fs : FsOracle) : StepResult :=
  if (splitCommand line).1 = CMD_ECHO then ⟨cwd, [(splitCommand line).2 ++ ['\n']], false, false⟩
  else if (splitCommand line).1 = CMD_QUIT then ⟨cwd, [RESP_BYE ++ ['\n']], true, false⟩
  else if (splitCommand line).1 = CMD_INFO then ⟨cwd, [SERVER_DEFAULT_WELCOME_MSG], false, false⟩
  else if (splitCommand line).1 = CMD_CD then
    ⟨(handle_cd root cwd (splitCommand line).2 fs).1,
      if (handle_cd root cwd (splitCommand line).2 fs).2 ≠ [] then
        [(handle_cd root cwd (splitCommand line).2 fs).2]
      else [],
      false, false⟩
  else if (splitCommand line).1 = CMD_LIST then ⟨cwd, [], false, true⟩
  else if (splitCommand line).1 ≠ [] then
    ⟨cwd, [respErrorPre ++ "Unknown command: ".data ++ (splitCommand line).1 ++ ['\n']],
      false, false⟩
  else ⟨cwd, [], false, false⟩

/-- format_list_item from server.c with the MAX_BUFFER_SIZE line buffer:
the name (truncated to NAME_MAX = 255 bytes) is followed by middle and
target only when BOTH are non-NULL, and by the suffix always. -/
def format_list_item (name : Path) (middle target : Option Path) (suffix : Path) : Path :=
  let tn := name.take 255
  match middle, target with
  | some m, some t => tn ++ m ++ t ++ suffix
  | _, _ => tn ++ suffix

/-- The absolute path of a directory entry as built by handle_list. -/
def itemPathAbs (cwd name : Path) : Path :=
  if cwd = [sep] then sep :: name else cwd ++ sep :: name

/-- first_target_abs_path as built by handle_list for a symlink whose raw
target was read: an absolute raw target is used as is; a relative one is
appended to the directory holding the link (dirname of the item path,
which is the cwd for the slash-free names readdir produces), with a
separator inserted unless that directory is `/` or already ends in one.
The double-separator guard at line 679 is unreachable (the raw target does
not begin with `/` in this branch) and is omitted. -/
def firstTargetAbs (cwd raw : Path) : Path :=
  if raw.head? = some sep then raw
  else cwd ++ (if cwd ≠ [sep] ∧ cwd ≠ [] ∧ cwd.getLast? ≠ some sep then [sep] else []) ++ raw

/-- The line handle_list emits for a directory entry that lstat classified
as a symlink (server.c lines 649-700). -/
def symlinkLine (fs : FsOracle) (root cwd name itemPath : Path) : Path :=
  match fs.readlink itemPath with
  | none => format_list_item name (some " -> ".data) none " [broken link]\n".data
  | some raw =>
    if raw.head? ≠ some sep ∧ cwd.length + 1 + raw.length + 1 > MAX_PATH_LEN then
      format_list_item name (some " -> ".data) (some raw) " [resolved path too long]\n".data
    else
      match fs.realpath (firstTargetAbs cwd raw) with
      | some ult =>
        match get_relative_path ult root with
        | some rel =>
          format_list_item name
            (some (if fs.lstatKind (firstTargetAbs cwd raw) = some LKind.lnk then
              " -->> ".data else " --> ".data)) (some rel) "\n".data
        | none => format_list_item name (some " -> ".data) (some raw) " [unresolved/external]\n".data
      | none => format_list_item name (some " -> ".data) (some raw) " [unresolved/external]\n".data

/-- The line handle_list emits for one directory entry, `none` when the
entry produces no output at all: the `.` and `..` entries and any entry
whose lstat fails are skipped silently (server.c lines 618-644). -/
def entryLine (fs : FsOracle) (root cwd name : Path) : Option Path :=
  if name = ['.'] ∨ name = ['.', '.'] then none
  else
    if (if cwd = [sep] then 1 + name.length + 1 else cwd.length + 1 + name.length + 1) >
        MAX_PATH_LEN then
      some (format_list_item name none none " [path too long to stat]\n".data)
    else
      match fs.lstatKind (itemPathAbs cwd name) with
      | none => none
      | some LKind.dir => some (format_list_item name none none "/\n".data)
      | some LKind.lnk => some (symlinkLine fs root cwd name (itemPathAbs cwd name))
      | some LKind.other => some (format_list_item name none none "\n".data)

/-- The sequence of lines handle_list emits for the given readdir entry
names, in order. -/
def listLines (fs : FsOracle) (root cwd : Path) (names : List Path) : List Path :=
  names.filterMap (entryLine fs root cwd)

/-- The lines process_commands_from_file in client.c sends to the server
for a batch file with the given (already `\r\n`-stripped) lines: empty
lines are skipped, every other line is sent verbatim, and a line whose
first token is QUIT is the last one sent. -/
def batchSend : List Path → List Path
  | [] => []
  | l :: ls =>
    if l = [] then batchSend ls
    else if (splitCommand l).1 = CMD_QUIT then [l]
    else l :: batchSend ls

/-- One result of the one-byte recv calls made by recv_line. -/
inductive RecvEv
  | byte (c : Char)
  | closed
  | eintr
  | eagain
  | fatal
deriving DecidableEq

/-- Recogniser for the interrupted-call event. -/
def isEintr : RecvEv → Bool
  | RecvEv.eintr => true
  | _ => false

/-- The read loop of recv_line (common.c lines 149-171) driven by a list
of recv outcomes; `cap` is max_len - 1, `acc` the bytes stored so far.
The returned buffer is the written prefix of the C buffer including the
final NUL byte; `none` means the event list was exhausted while the loop
would have kept reading. -/
def recvAux (evs : List RecvEv) (acc : Path) (cap : Nat) : Option (Int × Path) :=
  if cap ≤ acc.length then some ((acc.length : Int), acc ++ ['\x00'])
  else
    match evs with
    | [] => none
    | RecvEv.byte c :: rest =>
      if c = '\n' then some (((acc.length + 1 : Nat) : Int), acc ++ [c, '\x00'])
      else recvAux rest (acc ++ [c]) cap
    | RecvEv.closed :: _ => some ((acc.length : Int), acc ++ ['\x00'])
    | RecvEv.eintr :: rest => recvAux rest acc cap
    | RecvEv.eagain :: _ =>
      if acc.length = 0 then some (-2, ['\x00'])
      else some ((acc.length : Int), acc ++ ['\x00'])
    | RecvEv.fatal :: _ => some (-1, acc ++ ['\x00'])

/-- recv_line from common.c: the early max_len guards (a zero-length
buffer returns -1 with nothing written, a one-byte buffer returns 0 with
just the NUL) followed by the read loop. -/
def recv_line (maxLen : Nat) (evs : List RecvEv) : Option (Int × Path) :=
  if maxLen = 0 then some (-1, [])
  else if maxLen = 1 then some (0, ['\x00'])
  else recvAux evs [] (maxLen - 1)

/-- The jail predicate of the specification: the candidate is the root
itself, or extends it past a separator, or the root is `/` and the
candidate is absolute (equal to `/` or a strict descendant of it). -/
def contained (root c : Path) : Prop :=
  c = root ∨ (root ++ [sep]) <+: c ∨ (root = [sep] ∧ [sep] <+: c)

/-- The canonical absolute path of the directory entry d directly below
the given root. -/
def childAbs (root d : Path) : Path :=
  if root = [sep] then root ++ d else root ++ sep :: d

/-- A concrete oracle used to instantiate theorems with hypotheses: the
directory `sub` below the root `/srv`, with `..` from it resolving back
to the root. -/
def fsSrv : FsOracle where
  realpath := fun p =>
    if p = "/srv/sub".data then some "/srv/sub".data
    else if p = "/srv/sub/..".data then some "/srv".data
    else none
  isDir := fun p => p = "/srv".data ∨ p = "/srv/sub".data
  lstatKind := fun _ => none
  readlink := fun _ => none

/-- A concrete oracle describing a root `/srv` that holds a directory
sub, a chained symlink mid pointing at sub, and the directory entries
l1 (link to sub), l2 (link to the link mid), l3 (link leaving the jail,
uncanonicalizable) and bad (readlink fails). -/
def fsList : FsOracle where
  realpath := fun p =>
    if p = "/srv/sub".data then some "/srv/sub".data
    else if p = "/srv/mid".data then some "/srv/sub".data
    else none
  isDir := fun _ => false
  lstatKind := fun p =>
    if p = "/srv/l1".data ∨ p = "/srv/l2".data ∨ p = "/srv/l3".data ∨
        p = "/srv/bad".data ∨ p = "/srv/mid".data then some LKind.lnk
    else if p = "/srv/sub".data then some LKind.dir
    else none
  readlink := fun p =>
    if p = "/srv/l1".data then some "sub".data
    else if p = "/srv/l2".data then some "mid".data
    else if p = "/srv/l3".data then some "../outside".data
    else none

/-- A concrete oracle on which every filesystem call fails. -/
def fsNone : FsOracle where
  realpath := fun _ => none
  isDir := fun _ => false
  lstatKind := fun _ => none
  readlink := fun _ => none

/-- Passing the jail containment check of handle_cd implies the
specification's jail predicate. -/
theorem jailCheck_contained (root r : Path) (h : jailCheck root r = true) :
    contained root r := by
  unfold jailCheck at h
  split at h
  · simp at h
  next h1 =>
    split at h
    · simp at h
    next h2 =>
      rcases not_or.mp h1 with ⟨hlen, hpre⟩
      have hpre' : root <+: r := by simpa using not_not.mp hpre
      obtain ⟨tl, rfl⟩ := hpre'
      by_cases hroot : root = [sep]
      · subst hroot
        exact Or.inr (Or.inr ⟨rfl, List.prefix_append _ _⟩)
      · cases tl with
        | nil => exact Or.inl (by simp)
        | cons a tl' =>
          have hgt : (root ++ a :: tl').length > root.length := by
            simp [List.length_append]
          have hidx : (root ++ a :: tl')[root.length]? = some a := by
            rw [List.getElem?_append_right (Nat.le_refl _)]
            simp
          have ha : a = sep := by
            by_contra hne
            exact h2 ⟨hgt, by rw [hidx]; simpa using hne, hroot⟩
          subst ha
          exact Or.inr (Or.inl ⟨tl', by simp⟩)

/-- C1: for every session and CD argument, after handle_cd returns the
session cwd is still the root or a strict descendant of it, and the cwd
changes only when the trial path was built, realpath succeeded, the
result is a directory, and the containment check passed, in which case
the new cwd is exactly that resolved path. -/
theorem handle_cd_jail_invariant (root cwd arg : Path) (fs : FsOracle)
    (h : contained root cwd) :
    contained root (handle_cd root cwd arg fs).1 ∧
    ((handle_cd root cwd arg fs).1 ≠ cwd →
      ∃ t resolved,
        buildTrial root cwd arg = some t ∧
        fs.realpath (if t = [] ∧ root = [sep] ∧ arg = [sep] then [sep] else t) = some resolved ∧
        fs.isDir resolved = true ∧ jailCheck root resolved = true ∧
        (handle_cd root cwd arg fs).1 = resolved) := by
  unfold handle_cd
  split
  · exact ⟨h, fun hne => absurd rfl hne⟩
  split
  · exact ⟨h, fun hne => absurd rfl hne⟩
  next t0 hb =>
    split
    · exact ⟨h, fun hne => absurd rfl hne⟩
    next resolved hr =>
      split
      · exact ⟨h, fun hne => absurd rfl hne⟩
      next hdir =>
        split
        · exact ⟨h, fun hne => absurd rfl hne⟩
        next hjc =>
          have hj : jailCheck root resolved = true := by
            by_contra hcon
            exact hjc (by simpa using hcon)
          have hd : fs.isDir resolved = true := by
            by_contra hcon
            exact hdir (by simpa using hcon)
          have hcont := jailCheck_contained root resolved hj
          have hex : ∃ t resolved',
              buildTrial root cwd arg = some t ∧
              fs.realpath (if t = [] ∧ root = [sep] ∧ arg = [sep] then [sep] else t) =
                some resolved' ∧
              fs.isDir resolved' = true ∧ jailCheck root resolved' = true ∧
              resolved = resolved' :=
            ⟨t0, resolved, hb, hr, hd, hj, rfl⟩
          split
          · exact ⟨hcont, fun _ => hex⟩
          · split
            · exact ⟨hcont, fun _ => hex⟩
            · exact ⟨hcont, fun _ => hex⟩

/-- Witness for C1 at the root `/srv` with argument `sub`. -/
theorem handle_cd_jail_invariant_witness :
    contained "/srv".data (handle_cd "/srv".data "/srv".data "sub".data fsSrv).1 ∧
    ((handle_cd "/srv".data "/srv".data "sub".data fsSrv).1 ≠ "/srv".data →
      ∃ t resolved,
        buildTrial "/srv".data "/srv".data "sub".data = some t ∧
        fsSrv.realpath
          (if t = [] ∧ "/srv".data = [sep] ∧ "sub".data = [sep] then [sep] else t) =
          some resolved ∧
        fsSrv.isDir resolved = true ∧ jailCheck "/srv".data resolved = true ∧
        (handle_cd "/srv".data "/srv".data "sub".data fsSrv).1 = resolved) :=
  handle_cd_jail_invariant "/srv".data "/srv".data "sub".data fsSrv (Or.inl rfl)

/-- C7 counterexample: a bare CD at the root produces no reply at all
(rather than an error reply) and leaves the cwd unchanged. -/
theorem cd_empty_arg_no_reply_cex :
    stepLine "/srv".data "/srv".data "CD".data fsSrv =
      ⟨"/srv".data, [], false, false⟩ := by decide

/-- C7 (amended): a CD command whose argument is empty is a silent no-op:
handle_cd leaves the cwd unchanged and builds no response, so the
dispatcher sends nothing to the client. -/
theorem cd_empty_arg_silent (root cwd line : Path) (fs : FsOracle)
    (hcmd : (splitCommand line).1 = CMD_CD) (harg : (splitCommand line).2 = []) :
    stepLine root cwd line fs = ⟨cwd, [], false, false⟩ := by
  unfold stepLine
  rw [hcmd, harg]
  simp [CMD_CD, CMD_ECHO, CMD_QUIT, CMD_INFO, handle_cd]

/-- Witness for C7 at the line consisting of CD surrounded by spaces. -/
theorem cd_empty_arg_silent_witness :
    stepLine "/top".data "/top".data " CD ".data fsNone =
      ⟨"/top".data, [], false, false⟩ :=
  cd_empty_arg_silent "/top".data "/top".data " CD ".data fsNone (by decide) (by decide)

/-- C2 counterexample: the server dispatcher answers a script line with an
unknown-command error and keeps the session open; it performs no script
interpretation of any kind. -/
theorem script_at_server_unknown_cex :
    (stepLine "/srv".data "/srv".data "@a.txt".data fsSrv).replies =
      ["ERROR: Unknown command: @a.txt\n".data] ∧
    (stepLine "/srv".data "/srv".data "@a.txt".data fsSrv).closes = false := by decide

/-- C2 (amended): a line whose first token begins with the at sign is not
routed to any script interpreter by the server: the dispatcher replies
with one unknown-command error naming the token, the session continues
and the cwd is unchanged; the batch replay loop of the client sends such
a line to the server verbatim, so a script file naming itself causes no
recursion. -/
theorem script_at_lines_not_interpreted (root cwd line t : Path) (fs : FsOracle)
    (h : (splitCommand line).1 = '@' :: t) :
    (stepLine root cwd line fs).replies =
      [respErrorPre ++ "Unknown command: ".data ++ ('@' :: t) ++ ['\n']] ∧
    (stepLine root cwd line fs).closes = false ∧
    (stepLine root cwd line fs).cwd = cwd ∧
    batchSend ['@' :: t] = ['@' :: t] := by
  have hq : ((splitCommand ('@' :: t)).1 = CMD_QUIT) = False := by
    simp [splitCommand, CMD_QUIT, isWs, List.dropWhile_cons, List.takeWhile_cons]
  unfold stepLine
  rw [h]
  refine ⟨?_, ?_, ?_, ?_⟩
  · simp [CMD_ECHO, CMD_QUIT, CMD_INFO, CMD_CD, CMD_LIST]
  · simp [CMD_ECHO, CMD_QUIT, CMD_INFO, CMD_CD, CMD_LIST]
  · simp [CMD_ECHO, CMD_QUIT, CMD_INFO, CMD_CD, CMD_LIST]
  · simp [batchSend, hq]

/-- Witness for C2 at the script line naming the file a.txt. -/
theorem script_at_lines_not_interpreted_witness :
    (stepLine "/srv".data "/srv".data "@a.txt".data fsNone).replies =
      [respErrorPre ++ "Unknown command: ".data ++ ('@' :: "a.txt".data) ++ ['\n']] ∧
    (stepLine "/srv".data "/srv".data "@a.txt".data fsNone).closes = false ∧
    (stepLine "/srv".data "/srv".data "@a.txt".data fsNone).cwd = "/srv".data ∧
    batchSend ['@' :: "a.txt".data] = ['@' :: "a.txt".data] :=
  script_at_lines_not_interpreted "/srv".data "/srv".data "@a.txt".data "a.txt".data fsNone
    (by decide)

/-- C3 counterexample: a non-empty, non-LIST command line, namely a CD
whose argument fails canonicalization, produces no reply line at all. -/
theorem cd_failure_no_reply_cex :
    "CD nosuch".data ≠ [] ∧
    (splitCommand "CD nosuch".data).1 ≠ CMD_LIST ∧
    (stepLine "/srv".data "/srv".data "CD nosuch".data fsNone).replies = [] := by decide

/-- C3 (amended): a non-LIST command line produces at most one reply, and
produces none exactly when the line has no token at all or is a CD whose
handler built an empty response (any failing CD). -/
theorem stepLine_reply_count (root cwd line : Path) (fs : FsOracle)
    (hnl : (splitCommand line).1 ≠ CMD_LIST) :
    (stepLine root cwd line fs).replies.length ≤ 1 ∧
    ((stepLine root cwd line fs).replies = [] ↔
      (splitCommand line).1 = [] ∨
      ((splitCommand line).1 = CMD_CD ∧
        (handle_cd root cwd (splitCommand line).2 fs).2 = [])) := by
  by_cases h1 : (splitCommand line).1 = CMD_ECHO
  · simp [stepLine, h1, show (CMD_ECHO : Path) ≠ [] from by decide,
      show CMD_ECHO ≠ CMD_CD from by decide]
  by_cases h2 : (splitCommand line).1 = CMD_QUIT
  · simp [stepLine, h1, h2, show CMD_QUIT ≠ CMD_ECHO from by decide,
      show (CMD_QUIT : Path) ≠ [] from by decide, show CMD_QUIT ≠ CMD_CD from by decide]
  by_cases h3 : (splitCommand line).1 = CMD_INFO
  · simp [stepLine, h1, h2, h3, show CMD_INFO ≠ CMD_ECHO from by decide,
      show CMD_INFO ≠ CMD_QUIT from by decide, show (CMD_INFO : Path) ≠ [] from by decide,
      show CMD_INFO ≠ CMD_CD from by decide,
      show (SERVER_DEFAULT_WELCOME_MSG : Path) ≠ [] from by decide]
  by_cases h4 : (splitCommand line).1 = CMD_CD
  · by_cases hresp : (handle_cd root cwd (splitCommand line).2 fs).2 = []
    · simp [stepLine, h4, hresp, show CMD_CD ≠ CMD_ECHO from by decide,
        show CMD_CD ≠ CMD_QUIT from by decide, show CMD_CD ≠ CMD_INFO from by decide,
        show (CMD_CD : Path) ≠ [] from by decide]
    · simp [stepLine, h4, hresp, show CMD_CD ≠ CMD_ECHO from by decide,
        show CMD_CD ≠ CMD_QUIT from by decide, show CMD_CD ≠ CMD_INFO from by decide,
        show (CMD_CD : Path) ≠ [] from by decide]
  by_cases h6 : (splitCommand line).1 = []
  · simp [stepLine, h6, show ([] : Path) ≠ CMD_ECHO from by decide,
      show ([] : Path) ≠ CMD_QUIT from by decide, show ([] : Path) ≠ CMD_INFO from by decide,
      show ([] : Path) ≠ CMD_CD from by decide, show ([] : Path) ≠ CMD_LIST from by decide]
  · simp [stepLine, h1, h2, h3, h4, hnl, h6]

/-- Witness for C3 at an ECHO line, which gets exactly one reply. -/
theorem stepLine_reply_count_witness :
    (stepLine "/srv".data "/srv".data "ECHO hi".data fsNone).replies.length ≤ 1 ∧
    ((stepLine "/srv".data "/srv".data "ECHO hi".data fsNone).replies = [] ↔
      (splitCommand "ECHO hi".data).1 = [] ∨
      ((splitCommand "ECHO hi".data).1 = CMD_CD ∧
        (handle_cd "/srv".data "/srv".data (splitCommand "ECHO hi".data).2 fsNone).2 = [])) :=
  stepLine_reply_count "/srv".data "/srv".data "ECHO hi".data fsNone (by decide)

/-- C6 counterexample: an ECHO followed by two spaces and text replies
with the text alone, not with the verbatim remainder that keeps the
second (leading) space. -/
theorem echo_verbatim_cex :
    (stepLine "/srv".data "/srv".data "ECHO  hi".data fsSrv).replies = ["hi\n".data] ∧
    ["hi\n".data] ≠ [" hi\n".data] := by decide

/-- C6 (amended): the dispatcher takes the first whitespace-delimited
token as the command and skips ALL whitespace separating it from the
argument, so ECHO replies with the remainder of the line stripped of its
leading whitespace (internal and trailing whitespace preserved by
dropWhile). -/
theorem echo_drops_separator_ws (root cwd : Path) (fs : FsOracle) (rest : Path) :
    (stepLine root cwd ("ECHO ".data ++ rest) fs).replies =
      [rest.dropWhile isWs ++ ['\n']] := by
  have hsplit : splitCommand ("ECHO ".data ++ rest) = (CMD_ECHO, rest.dropWhile isWs) := by
    show splitCommand ('E' :: 'C' :: 'H' :: 'O' :: ' ' :: rest) = (CMD_ECHO, rest.dropWhile isWs)
    simp [splitCommand, CMD_ECHO, List.dropWhile_cons, List.takeWhile_cons,
      show isWs 'E' = false from by decide, show isWs 'C' = false from by decide,
      show isWs 'H' = false from by decide, show isWs 'O' = false from by decide,
      show isWs ' ' = true from by decide]
  unfold stepLine
  rw [hsplit]
  simp

/-- The containment check accepts the root itself. -/
theorem jailCheck_self (root : Path) : jailCheck root root = true := by
  unfold jailCheck
  rw [if_neg (by simp), if_neg (by simp)]

/-- The containment check accepts any path extending the root past a
separator. -/
theorem jailCheck_append_sep (root rest : Path) :
    jailCheck root (root ++ sep :: rest) = true := by
  have hidx : (root ++ sep :: rest)[root.length]? = some sep := by
    rw [List.getElem?_append_right (Nat.le_refl _)]
    simp
  unfold jailCheck
  rw [if_neg, if_neg (by simp [hidx])]
  rw [not_or]
  exact ⟨by simp only [List.length_append]; omega, by simp⟩

/-- The containment check with root `/` accepts any absolute path. -/
theorem jailCheck_slash (p : Path) : jailCheck [sep] (sep :: p) = true := by
  unfold jailCheck
  rw [if_neg (by simp), if_neg (by simp)]

/-- get_relative_path of the root itself is the separator alone. -/
theorem get_relative_path_self (root : Path) :
    get_relative_path root root = some [sep] := by
  unfold get_relative_path
  rw [if_neg (by simp), if_pos rfl]

/-- get_relative_path of a path extending a non-slash root past a
separator keeps the separator and the remainder. -/
theorem get_relative_path_append_sep (root rest : Path) (hroot : root ≠ [sep])
    (hlen : rest.length + 2 ≤ MAX_PATH_LEN) :
    get_relative_path (root ++ sep :: rest) root = some (sep :: rest) := by
  have hidx : (root ++ sep :: rest)[root.length]? = some sep := by
    rw [List.getElem?_append_right (Nat.le_refl _)]
    simp
  have hafter : relAfterRoot (root ++ sep :: rest) root = sep :: rest := by
    unfold relAfterRoot
    rw [if_neg hroot, List.drop_left]
  unfold get_relative_path
  rw [if_neg (by simp)]
  rw [if_neg (by simp only [List.length_append, List.length_cons]; omega)]
  rw [if_neg (by simp [hidx])]
  rw [hafter]
  rw [if_neg (by simp only [List.length_cons, MAX_PATH_LEN] at hlen ⊢; omega)]
  rw [if_neg (by simp)]
  rw [if_neg (by simp)]

/-- get_relative_path below the root `/` returns the absolute path
unchanged. -/
theorem get_relative_path_root_slash (d : Path) (hd : d ≠ [])
    (hlen : d.length + 2 ≤ MAX_PATH_LEN) :
    get_relative_path (sep :: d) [sep] = some (sep :: d) := by
  unfold get_relative_path
  rw [if_neg (by simp)]
  rw [if_neg (by simp [hd])]
  rw [if_neg (by simp)]
  have hafter : relAfterRoot (sep :: d) [sep] = sep :: d := by
    unfold relAfterRoot
    rw [if_pos rfl]
  rw [hafter]
  rw [if_neg (by simp only [List.length_cons, MAX_PATH_LEN] at hlen ⊢; omega)]
  rw [if_neg (by simp)]
  rw [if_neg (by simp)]

/-- The display transform strips the leading separator from a non-root
relative path. -/
theorem cdDisplay_cons (d : Path) (hd : d ≠ []) : cdDisplay (sep :: d) = d := by
  unfold cdDisplay
  rw [if_neg (by simpa using hd), if_pos ⟨rfl, by
    simp only [List.length_cons]
    have := List.length_pos.mpr hd
    omega⟩]
  simp

/-- C5 counterexample: a successful CD strictly below the root changes the
cwd but replies with a line that does NOT begin with the path separator. -/
theorem cd_display_no_leading_sep_cex :
    (handle_cd "/srv".data "/srv".data "sub".data fsSrv).2 = "sub\n".data ∧
    List.head? "sub\n".data ≠ some sep ∧
    (handle_cd "/srv".data "/srv".data "sub".data fsSrv).1 ≠ "/srv".data := by decide

/-- C5 (amended): a successful CD to a directory strictly below a
non-slash root replies with the canonical path minus the root and minus
the leading separator, newline-terminated; the bare separator is shown
only when the new cwd equals the root. -/
theorem cd_success_display (root cwd arg rest t : Path) (fs : FsOracle)
    (hroot : root ≠ [sep]) (harg : arg ≠ [])
    (ht : buildTrial root cwd arg = some t)
    (hts : ¬(t = [] ∧ root = [sep] ∧ arg = [sep]))
    (hrp : fs.realpath t = some (root ++ sep :: rest))
    (hdir : fs.isDir (root ++ sep :: rest) = true)
    (hrest : rest ≠ [])
    (hlen : rest.length + 2 ≤ MAX_PATH_LEN) :
    handle_cd root cwd arg fs = (root ++ sep :: rest, rest ++ ['\n']) := by
  have hjc : jailCheck root (root ++ sep :: rest) = true := jailCheck_append_sep root rest
  have hrel := get_relative_path_append_sep root rest hroot hlen
  have hdisp : cdDisplay (sep :: rest) = rest := cdDisplay_cons rest hrest
  have hlen2 : rest.length + 2 ≤ MAX_BUFFER_SIZE := by
    simpa [MAX_BUFFER_SIZE, MAX_PATH_LEN] using hlen
  simp only [handle_cd, harg, ht, hts, hrp, hdir, hjc, hrel, hdisp, if_false, if_neg,
    not_true, not_false_iff, if_true, ite_false, ite_true]
  simp [hlen2]

/-- Witness for C5 at the child sub of the root `/srv`. -/
theorem cd_success_display_witness :
    handle_cd "/srv".data "/srv".data "sub".data fsSrv =
      ("/srv".data ++ sep :: "sub".data, "sub".data ++ ['\n']) :=
  cd_success_display "/srv".data "/srv".data "sub".data "sub".data "/srv/sub".data fsSrv
    (by decide) (by decide) (by decide) (by decide) (by decide) (by decide) (by decide)
    (by decide)

/-- C9: CD into a direct child of the root followed by CD dot-dot returns
the session cwd to the root and replies with the top-level display form,
the separator alone. -/
theorem cd_roundtrip (root d : Path) (fs : FsOracle)
    (hd : d ≠ []) (hdsep : sep ∉ d)
    (hroot0 : root ≠ []) (hrootl : root = [sep] ∨ root.getLast? ≠ some sep)
    (hrp1 : fs.realpath (childAbs root d) = some (childAbs root d))
    (hdir1 : fs.isDir (childAbs root d) = true)
    (hrp2 : fs.realpath (childAbs root d ++ [sep, '.', '.']) = some root)
    (hdir2 : fs.isDir root = true)
    (hlen : root.length + d.length + 5 ≤ MAX_PATH_LEN) :
    (handle_cd root root d fs).1 = childAbs root d ∧
    handle_cd root (handle_cd root root d fs).1 ['.', '.'] fs = (root, [sep, '\n']) := by
  have hdhead : d.head? ≠ some sep := by
    cases d with
    | nil => simp
    | cons c t =>
      simp only [List.head?_cons, ne_eq, Option.some.injEq]
      intro hc
      exact hdsep (List.mem_cons.mpr (Or.inl hc.symm))
  have hrl := List.length_pos.mpr hroot0
  have hdl := List.length_pos.mpr hd
  have hml : root.length + d.length + 5 ≤ 4096 := by
    simpa [MAX_PATH_LEN] using hlen
  have hch_ne_nil : childAbs root d ≠ [] := by
    unfold childAbs
    split <;> simp [hroot0]
  have hch_len2 : 2 ≤ (childAbs root d).length := by
    unfold childAbs
    split <;> simp only [List.length_append, List.length_cons] <;> omega
  have hch_le : (childAbs root d).length ≤ root.length + d.length + 1 := by
    unfold childAbs
    split <;> simp only [List.length_append, List.length_cons] <;> omega
  have hch_ne_slash : childAbs root d ≠ [sep] := by
    intro hcon
    rw [hcon] at hch_len2
    simp at hch_len2
  obtain ⟨ys, y, hy⟩ : ∃ ys y, d = ys ++ [y] := by
    rcases List.eq_nil_or_concat d with h | ⟨L, b, hb⟩
    · exact absurd h hd
    · exact ⟨L, b, by simpa [List.concat_eq_append] using hb⟩
  have hy_ne : y ≠ sep := by
    intro hcon
    exact hdsep (by simp [hy, hcon])
  have hch_last : (childAbs root d).getLast? = some y := by
    unfold childAbs
    split
    · rw [hy, ← List.append_assoc]
      exact List.getLast?_concat _
    · rw [hy, show root ++ sep :: (ys ++ [y]) = (root ++ sep :: ys) ++ [y] by simp]
      exact List.getLast?_concat _
  have hch_last_ne : (childAbs root d).getLast? ≠ some sep := by
    rw [hch_last]
    simp [hy_ne]
  have hbt1 : buildTrial root root d = some (childAbs root d) := by
    unfold buildTrial
    rw [if_neg hdhead]
    rw [if_neg (by simp only [MAX_PATH_LEN]; omega)]
    unfold childAbs
    by_cases hslash : root = [sep]
    · rw [if_neg (by simp [hslash]), if_pos hslash]
      simp
    · rcases hrootl with h | h
      · exact absurd h hslash
      · rw [if_pos ⟨hslash, hroot0, h⟩, if_neg hslash]
        simp
  have hts1 : ¬(childAbs root d = [] ∧ root = [sep] ∧ d = [sep]) := fun h => hch_ne_nil h.1
  have hjc1 : jailCheck root (childAbs root d) = true := by
    unfold childAbs
    by_cases hs : root = [sep]
    · rw [if_pos hs, hs, List.singleton_append]
      cases d with
      | nil => exact absurd rfl hd
      | cons c t => exact jailCheck_slash (c :: t)
    · rw [if_neg hs]
      exact jailCheck_append_sep root d
  have hrel1 : get_relative_path (childAbs root d) root = some (sep :: d) := by
    unfold childAbs
    by_cases hs : root = [sep]
    · rw [if_pos hs, hs, List.singleton_append]
      exact get_relative_path_root_slash d hd (by simp only [MAX_PATH_LEN]; omega)
    · rw [if_neg hs]
      exact get_relative_path_append_sep root d hs (by simp only [MAX_PATH_LEN]; omega)
  have hdisp1 : cdDisplay (sep :: d) = d := cdDisplay_cons d hd
  have hlen2 : d.length + 2 ≤ MAX_BUFFER_SIZE := by
    simp only [MAX_BUFFER_SIZE]
    omega
  have hs1 : handle_cd root root d fs = (childAbs root d, d ++ ['\n']) := by
    simp [handle_cd, hd, hbt1, hts1, hrp1, hdir1, hjc1, hrel1, hdisp1, hlen2]
  have hbt2 : buildTrial root (childAbs root d) ['.', '.'] =
      some (childAbs root d ++ [sep, '.', '.']) := by
    unfold buildTrial
    rw [if_neg (by decide)]
    rw [if_neg (by simp only [MAX_PATH_LEN, List.length_cons, List.length_nil]; omega)]
    rw [if_pos ⟨hch_ne_slash, hch_ne_nil, hch_last_ne⟩]
    simp
  have hts2 : ¬(childAbs root d ++ [sep, '.', '.'] = [] ∧ root = [sep] ∧
      (['.', '.'] : Path) = [sep]) := by
    rintro ⟨-, -, h⟩
    exact absurd h (by decide)
  have hdisp2 : cdDisplay [sep] = [sep] := by
    unfold cdDisplay
    rw [if_pos rfl]
  have hs2 : handle_cd root (childAbs root d) ['.', '.'] fs = (root, [sep, '\n']) := by
    simp [handle_cd, hbt2, hts2, hrp2, hdir2, jailCheck_self, get_relative_path_self,
      hdisp2, MAX_BUFFER_SIZE]
  refine ⟨by rw [hs1], ?_⟩
  rw [hs1]
  exact hs2

/-- Witness for C9 at the root `/srv` and its child sub. -/
theorem cd_roundtrip_witness :
    (handle_cd "/srv".data "/srv".data "sub".data fsSrv).1 =
      childAbs "/srv".data "sub".data ∧
    handle_cd "/srv".data (handle_cd "/srv".data "/srv".data "sub".data fsSrv).1
      ['.', '.'] fsSrv = ("/srv".data, [sep, '\n']) :=
  cd_roundtrip "/srv".data "sub".data fsSrv (by decide) (by decide) (by decide)
    (by decide) (by decide) (by decide) (by decide) (by decide) (by decide)

/-- C10: a directory entry other than dot and dot-dot whose lstat fails is
silently skipped by LIST: it produces no output line of any kind, and the
listing of a directory containing it equals the listing of the same
directory without it. -/
theorem list_skips_lstat_failed (fs : FsOracle) (root cwd name : Path)
    (pre post : List Path)
    (h1 : ¬(name = ['.'] ∨ name = ['.', '.']))
    (h2 : (if cwd = [sep] then 1 + name.length + 1 else cwd.length + 1 + name.length + 1) ≤
      MAX_PATH_LEN)
    (h3 : fs.lstatKind (itemPathAbs cwd name) = none) :
    entryLine fs root cwd name = none ∧
    listLines fs root cwd (pre ++ name :: post) = listLines fs root cwd (pre ++ post) := by
  have he : entryLine fs root cwd name = none := by
    unfold entryLine
    rw [if_neg h1, if_neg (Nat.not_lt.mpr h2), h3]
  exact ⟨he, by simp [listLines, he]⟩

/-- Witness for C10: a directory with entries a, gone (lstat failure) and
b lists exactly as one with a and b. -/
theorem list_skips_lstat_failed_witness :
    entryLine fsNone "/srv".data "/srv".data "gone".data = none ∧
    listLines fsNone "/srv".data "/srv".data (["a".data] ++ "gone".data :: ["b".data]) =
      listLines fsNone "/srv".data "/srv".data (["a".data] ++ ["b".data]) :=
  list_skips_lstat_failed fsNone "/srv".data "/srv".data "gone".data ["a".data] ["b".data]
    (by decide) (by decide) (by decide)

/-- C4: the LIST lines for symlink entries, evaluated on a directory with
all four symlink classifications: a single-hop link inside the jail, a
chained link inside the jail, a link whose ultimate target cannot be
canonicalized, and a link whose readlink fails.  The first three match
the claim; the broken-link line omits the arrow separator because
format_list_item drops the middle part when the target is NULL, diverging
from the claimed form. -/
theorem list_symlink_line_shapes :
    entryLine fsList "/srv".data "/srv".data "l1".data = some "l1 --> /sub\n".data ∧
    entryLine fsList "/srv".data "/srv".data "l2".data = some "l2 -->> /sub\n".data ∧
    entryLine fsList "/srv".data "/srv".data "l3".data =
      some "l3 -> ../outside [unresolved/external]\n".data ∧
    entryLine fsList "/srv".data "/srv".data "bad".data = some "bad [broken link]\n".data ∧
    "bad [broken link]\n".data ≠ "bad -> [broken link]\n".data := by decide

/-- Unfolding of the read loop on an exhausted event list. -/
theorem recvAux_nil_eq (acc : Path) (cap : Nat) :
    recvAux [] acc cap =
      if cap ≤ acc.length then some ((acc.length : Int), acc ++ ['\x00']) else none := rfl

/-- Unfolding of the read loop on a received byte. -/
theorem recvAux_byte_eq (c : Char) (rest : List RecvEv) (acc : Path) (cap : Nat) :
    recvAux (RecvEv.byte c :: rest) acc cap =
      if cap ≤ acc.length then some ((acc.length : Int), acc ++ ['\x00'])
      else if c = '\n' then some (((acc.length + 1 : Nat) : Int), acc ++ [c, '\x00'])
      else recvAux rest (acc ++ [c]) cap := rfl

/-- Unfolding of the read loop on peer closure: both the loop-bound exit
and the closure exit return the bytes collected so far. -/
theorem recvAux_closed_eq (tl : List RecvEv) (acc : Path) (cap : Nat) :
    recvAux (RecvEv.closed :: tl) acc cap = some ((acc.length : Int), acc ++ ['\x00']) := by
  unfold recvAux
  split <;> rfl

/-- Unfolding of the read loop on an interrupted call. -/
theorem recvAux_eintr_eq (tl : List RecvEv) (acc : Path) (cap : Nat) :
    recvAux (RecvEv.eintr :: tl) acc cap =
      if cap ≤ acc.length then some ((acc.length : Int), acc ++ ['\x00'])
      else recvAux tl acc cap := rfl

/-- Unfolding of the read loop on a timeout. -/
theorem recvAux_eagain_eq (tl : List RecvEv) (acc : Path) (cap : Nat) :
    recvAux (RecvEv.eagain :: tl) acc cap =
      if cap ≤ acc.length then some ((acc.length : Int), acc ++ ['\x00'])
      else if acc.length = 0 then some (-2, ['\x00'])
      else some ((acc.length : Int), acc ++ ['\x00']) := rfl

/-- Unfolding of the read loop on a fatal socket error. -/
theorem recvAux_fatal_eq (tl : List RecvEv) (acc : Path) (cap : Nat) :
    recvAux (RecvEv.fatal :: tl) acc cap =
      if cap ≤ acc.length then some ((acc.length : Int), acc ++ ['\x00'])
      else some (-1, acc ++ ['\x00']) := rfl

/-- The read loop never returns 0 or -2 once at least one byte has been
stored. -/
theorem recvAux_ne_of_acc (evs : List RecvEv) (acc : Path) (cap : Nat) (r : Int) (buf : Path)
    (hacc : acc ≠ []) (h : recvAux evs acc cap = some (r, buf)) : r ≠ 0 ∧ r ≠ -2 := by
  induction evs generalizing acc with
  | nil =>
    have hpos := List.length_pos.mpr hacc
    rw [recvAux_nil_eq] at h
    split at h
    · simp only [Option.some.injEq, Prod.mk.injEq] at h
      obtain ⟨hr, -⟩ := h
      constructor <;> omega
    · simp at h
  | cons e rest ih =>
    have hpos := List.length_pos.mpr hacc
    cases e with
    | byte c =>
      rw [recvAux_byte_eq] at h
      split at h
      · simp only [Option.some.injEq, Prod.mk.injEq] at h
        obtain ⟨hr, -⟩ := h
        constructor <;> omega
      · split at h
        · simp only [Option.some.injEq, Prod.mk.injEq] at h
          obtain ⟨hr, -⟩ := h
          constructor <;> omega
        · exact ih (acc ++ [c]) (by simp) h
    | closed =>
      rw [recvAux_closed_eq] at h
      simp only [Option.some.injEq, Prod.mk.injEq] at h
      obtain ⟨hr, -⟩ := h
      constructor <;> omega
    | eintr =>
      rw [recvAux_eintr_eq] at h
      split at h
      · simp only [Option.some.injEq, Prod.mk.injEq] at h
        obtain ⟨hr, -⟩ := h
        constructor <;> omega
      · exact ih acc hacc h
    | eagain =>
      rw [recvAux_eagain_eq] at h
      split at h
      · simp only [Option.some.injEq, Prod.mk.injEq] at h
        obtain ⟨hr, -⟩ := h
        constructor <;> omega
      · split at h
        next hz => omega
        · simp only [Option.some.injEq, Prod.mk.injEq] at h
          obtain ⟨hr, -⟩ := h
          constructor <;> omega
    | fatal =>
      rw [recvAux_fatal_eq] at h
      split at h
      · simp only [Option.some.injEq, Prod.mk.injEq] at h
        obtain ⟨hr, -⟩ := h
        constructor <;> omega
      · simp only [Option.some.injEq, Prod.mk.injEq] at h
        obtain ⟨hr, -⟩ := h
        constructor <;> omega

/-- Starting from an empty buffer, the read loop returns 0 exactly when
the first event besides interruptions is the peer closing, and -2 exactly
when it is a timeout. -/
theorem recvAux_zero_iff (evs : List RecvEv) (cap : Nat) (r : Int) (buf : Path)
    (hcap : 1 ≤ cap) (h : recvAux evs [] cap = some (r, buf)) :
    (r = 0 ↔ (evs.dropWhile isEintr).head? = some RecvEv.closed) ∧
    (r = -2 ↔ (evs.dropWhile isEintr).head? = some RecvEv.eagain) := by
  induction evs with
  | nil =>
    rw [recvAux_nil_eq] at h
    rw [if_neg (by simp only [List.length_nil]; omega)] at h
    simp at h
  | cons e rest ih =>
    cases e with
    | byte c =>
      have hdw : ((RecvEv.byte c :: rest).dropWhile isEintr).head? =
          some (RecvEv.byte c) := by
        simp [List.dropWhile_cons, isEintr]
      rw [hdw]
      rw [recvAux_byte_eq, if_neg (by simp only [List.length_nil]; omega)] at h
      split at h
      · simp only [Option.some.injEq, Prod.mk.injEq] at h
        obtain ⟨hr, -⟩ := h
        refine ⟨⟨fun h0 => by omega, fun hc => by simp at hc⟩,
          ⟨fun h0 => by omega, fun hc => by simp at hc⟩⟩
      · obtain ⟨h0, h2⟩ := recvAux_ne_of_acc rest ([] ++ [c]) cap r buf (by simp) h
        simp [h0, h2]
    | closed =>
      rw [recvAux_closed_eq] at h
      simp only [List.length_nil, Nat.cast_zero, Option.some.injEq, Prod.mk.injEq] at h
      obtain ⟨hr, -⟩ := h
      have hdw : ((RecvEv.closed :: rest).dropWhile isEintr).head? =
          some RecvEv.closed := by
        simp [List.dropWhile_cons, isEintr]
      rw [hdw, ← hr]
      refine ⟨by simp, ⟨fun h0 => by omega, fun hc => by simp at hc⟩⟩
    | eintr =>
      have hdw : (RecvEv.eintr :: rest).dropWhile isEintr = rest.dropWhile isEintr := by
        simp [List.dropWhile_cons, isEintr]
      rw [hdw]
      rw [recvAux_eintr_eq, if_neg (by simp only [List.length_nil]; omega)] at h
      exact ih h
    | eagain =>
      rw [recvAux_eagain_eq, if_neg (by simp only [List.length_nil]; omega),
        if_pos (by simp)] at h
      simp only [Option.some.injEq, Prod.mk.injEq] at h
      obtain ⟨hr, -⟩ := h
      have hdw : ((RecvEv.eagain :: rest).dropWhile isEintr).head? =
          some RecvEv.eagain := by
        simp [List.dropWhile_cons, isEintr]
      rw [hdw, ← hr]
      refine ⟨⟨fun h0 => by omega, fun hc => by simp at hc⟩, by simp⟩
    | fatal =>
      rw [recvAux_fatal_eq, if_neg (by simp only [List.length_nil]; omega)] at h
      simp only [Option.some.injEq, Prod.mk.injEq] at h
      obtain ⟨hr, -⟩ := h
      have hdw : ((RecvEv.fatal :: rest).dropWhile isEintr).head? =
          some RecvEv.fatal := by
        simp [List.dropWhile_cons, isEintr]
      rw [hdw, ← hr]
      refine ⟨⟨fun h0 => by omega, fun hc => by simp at hc⟩,
        ⟨fun h0 => by omega, fun hc => by simp at hc⟩⟩

/-- Every buffer the read loop hands back ends with the NUL byte the code
writes before returning. -/
theorem recvAux_nul (evs : List RecvEv) (acc : Path) (cap : Nat) (r : Int) (buf : Path)
    (h : recvAux evs acc cap = some (r, buf)) : buf.getLast? = some '\x00' := by
  induction evs generalizing acc with
  | nil =>
    rw [recvAux_nil_eq] at h
    split at h
    · simp only [Option.some.injEq, Prod.mk.injEq] at h
      obtain ⟨-, hb⟩ := h
      rw [← hb]
      exact List.getLast?_concat _
    · simp at h
  | cons e rest ih =>
    cases e with
    | byte c =>
      rw [recvAux_byte_eq] at h
      split at h
      · simp only [Option.some.injEq, Prod.mk.injEq] at h
        obtain ⟨-, hb⟩ := h
        rw [← hb]
        exact List.getLast?_concat _
      · split at h
        · simp only [Option.some.injEq, Prod.mk.injEq] at h
          obtain ⟨-, hb⟩ := h
          rw [← hb, show acc ++ [c, '\x00'] = (acc ++ [c]) ++ ['\x00'] by simp]
          exact List.getLast?_concat _
        · exact ih _ h
    | closed =>
      rw [recvAux_closed_eq] at h
      simp only [Option.some.injEq, Prod.mk.injEq] at h
      obtain ⟨-, hb⟩ := h
      rw [← hb]
      exact List.getLast?_concat _
    | eintr =>
      rw [recvAux_eintr_eq] at h
      split at h
      · simp only [Option.some.injEq, Prod.mk.injEq] at h
        obtain ⟨-, hb⟩ := h
        rw [← hb]
        exact List.getLast?_concat _
      · exact ih _ h
    | eagain =>
      rw [recvAux_eagain_eq] at h
      split at h
      · simp only [Option.some.injEq, Prod.mk.injEq] at h
        obtain ⟨-, hb⟩ := h
        rw [← hb]
        exact List.getLast?_concat _
      · split at h
        · simp only [Option.some.injEq, Prod.mk.injEq] at h
          obtain ⟨-, hb⟩ := h
          rw [← hb]
          rfl
        · simp only [Option.some.injEq, Prod.mk.injEq] at h
          obtain ⟨-, hb⟩ := h
          rw [← hb]
          exact List.getLast?_concat _
    | fatal =>
      rw [recvAux_fatal_eq] at h
      split at h
      · simp only [Option.some.injEq, Prod.mk.injEq] at h
        obtain ⟨-, hb⟩ := h
        rw [← hb]
        exact List.getLast?_concat _
      · simp only [Option.some.injEq, Prod.mk.injEq] at h
        obtain ⟨-, hb⟩ := h
        rw [← hb]
        exact List.getLast?_concat _

/-- A run of newline-free bytes followed by closure or a timeout makes the
read loop return exactly those bytes as a partial line. -/
theorem recvAux_partial (bs : List Char) (acc : Path) (cap : Nat) (tail : List RecvEv)
    (ev : RecvEv) (hev : ev = RecvEv.closed ∨ ev = RecvEv.eagain)
    (hnl : '\n' ∉ bs) (hne : acc ++ bs ≠ []) (hcap : acc.length + bs.length < cap) :
    recvAux (bs.map RecvEv.byte ++ ev :: tail) acc cap =
      some (((acc.length + bs.length : Nat) : Int), acc ++ bs ++ ['\x00']) := by
  induction bs generalizing acc with
  | nil =>
    simp only [List.map_nil, List.nil_append]
    rcases hev with h | h <;> subst h
    · rw [recvAux_closed_eq]
      simp
    · rw [recvAux_eagain_eq,
        if_neg (by simp only [List.length_nil] at hcap; omega),
        if_neg (by simpa using hne)]
      simp
  | cons b bs' ih =>
    simp only [List.map_cons, List.cons_append]
    rw [recvAux_byte_eq,
      if_neg (by simp only [List.length_cons] at hcap; omega),
      if_neg (fun hc => hnl (by simp [hc])),
      ih (acc ++ [b]) (fun hm => hnl (by simp [hm])) (by simp)
        (by simp only [List.length_append, List.length_singleton, List.length_cons,
              List.length_nil] at hcap ⊢
            omega)]
    simp only [List.length_append, List.length_singleton, List.length_cons,
      List.length_nil, List.append_assoc, List.singleton_append, Option.some.injEq,
      Prod.mk.injEq]
    refine ⟨by congr 1; omega, trivial⟩

/-- A run of newline-free bytes followed by a newline byte makes the read
loop return the line including the newline. -/
theorem recvAux_newline (bs : List Char) (acc : Path) (cap : Nat) (tail : List RecvEv)
    (hnl : '\n' ∉ bs) (hcap : acc.length + bs.length < cap) :
    recvAux (bs.map RecvEv.byte ++ RecvEv.byte '\n' :: tail) acc cap =
      some (((acc.length + bs.length + 1 : Nat) : Int), acc ++ bs ++ ['\n', '\x00']) := by
  induction bs generalizing acc with
  | nil =>
    simp only [List.map_nil, List.nil_append]
    rw [recvAux_byte_eq,
      if_neg (by simp only [List.length_nil] at hcap; omega),
      if_pos rfl]
    simp
  | cons b bs' ih =>
    simp only [List.map_cons, List.cons_append]
    rw [recvAux_byte_eq,
      if_neg (by simp only [List.length_cons] at hcap; omega),
      if_neg (fun hc => hnl (by simp [hc])),
      ih (acc ++ [b]) (fun hm => hnl (by simp [hm]))
        (by simp only [List.length_append, List.length_singleton, List.length_cons,
              List.length_nil] at hcap ⊢
            omega)]
    simp only [List.length_append, List.length_singleton, List.length_cons,
      List.length_nil, List.append_assoc, List.singleton_append, Option.some.injEq,
      Prod.mk.injEq]
    refine ⟨by congr 1; omega, trivial⟩

/-- C8 counterexample: with a one-byte buffer recv_line returns the
distinguished closed result 0 although the peer never closed. -/
theorem recv_line_maxlen_one_cex :
    recv_line 1 [RecvEv.byte 'a'] = some (0, ['\x00']) ∧
    RecvEv.closed ∉ [RecvEv.byte 'a'] := by decide

/-- C8 (amended): for buffers of at least two bytes, recv_line returns 0
exactly when the peer closed before any byte of the line was received and
-2 exactly when a timeout elapsed with no byte collected; the returned
buffer always ends in NUL; and bytes followed by closure or timeout come
back as a positive partial line, with the newline stored when it was
seen.  A one-byte buffer instead returns 0 without reading. -/
theorem recv_line_results (maxLen : Nat) (evs : List RecvEv) (r : Int) (buf : Path)
    (bs : List Char) (tail : List RecvEv)
    (hml : 2 ≤ maxLen) (hrun : recv_line maxLen evs = some (r, buf))
    (hbs : bs ≠ []) (hnl : '\n' ∉ bs) (hblen : bs.length < maxLen - 1) :
    (r = 0 ↔ (evs.dropWhile isEintr).head? = some RecvEv.closed) ∧
    (r = -2 ↔ (evs.dropWhile isEintr).head? = some RecvEv.eagain) ∧
    buf.getLast? = some '\x00' ∧
    recv_line maxLen (bs.map RecvEv.byte ++ RecvEv.closed :: tail) =
      some ((bs.length : Int), bs ++ ['\x00']) ∧
    recv_line maxLen (bs.map RecvEv.byte ++ RecvEv.eagain :: tail) =
      some ((bs.length : Int), bs ++ ['\x00']) ∧
    recv_line maxLen (bs.map RecvEv.byte ++ RecvEv.byte '\n' :: tail) =
      some (((bs.length + 1 : Nat) : Int), bs ++ ['\n', '\x00']) := by
  have hm0 : ¬ maxLen = 0 := by omega
  have hm1 : ¬ maxLen = 1 := by omega
  have hrun' : recvAux evs [] (maxLen - 1) = some (r, buf) := by
    unfold recv_line at hrun
    rw [if_neg hm0, if_neg hm1] at hrun
    exact hrun
  have hiff := recvAux_zero_iff evs (maxLen - 1) r buf (by omega) hrun'
  refine ⟨hiff.1, hiff.2, recvAux_nul evs [] (maxLen - 1) r buf hrun', ?_, ?_, ?_⟩
  · unfold recv_line
    rw [if_neg hm0, if_neg hm1,
      recvAux_partial bs [] (maxLen - 1) tail RecvEv.closed (Or.inl rfl) hnl
        (by simpa using hbs) (by simpa using hblen)]
    simp
  · unfold recv_line
    rw [if_neg hm0, if_neg hm1,
      recvAux_partial bs [] (maxLen - 1) tail RecvEv.eagain (Or.inr rfl) hnl
        (by simpa using hbs) (by simpa using hblen)]
    simp
  · unfold recv_line
    rw [if_neg hm0, if_neg hm1,
      recvAux_newline bs [] (maxLen - 1) tail hnl (by simpa using hblen)]
    simp

/-- Witness for C8 at an eight-byte buffer receiving one byte, an
interruption and a closure. -/
theorem recv_line_results_witness :
    ((1 : Int) = 0 ↔
      (([RecvEv.byte 'h', RecvEv.eintr,
        RecvEv.closed].dropWhile isEintr)).head? = some RecvEv.closed) ∧
    ((1 : Int) = -2 ↔
      (([RecvEv.byte 'h', RecvEv.eintr,
        RecvEv.closed].dropWhile isEintr)).head? = some RecvEv.eagain) ∧
    List.getLast? ['h', '\x00'] = some '\x00' ∧
    recv_line 8 ("hi".data.map RecvEv.byte ++ RecvEv.closed :: []) =
      some (("hi".data.length : Int), "hi".data ++ ['\x00']) ∧
    recv_line 8 ("hi".data.map RecvEv.byte ++ RecvEv.eagain :: []) =
      some (("hi".data.length : Int), "hi".data ++ ['\x00']) ∧
    recv_line 8 ("hi".data.map RecvEv.byte ++ RecvEv.byte '\n' :: []) =
      some ((("hi".data.length + 1 : Nat) : Int), "hi".data ++ ['\n', '\x00']) :=
  recv_line_results 8 [RecvEv.byte 'h', RecvEv.eintr, RecvEv.closed] 1 ['h', '\x00']
    "hi".data [] (by decide) (by decide) (by decide) (by decide) (by decide)

end Srv
